import Mathlib

/-! Verification development for the BuilderBot Discord bot (`src/bot.py`,
`src/agent.py`).  The Python functions relevant to the specified
components (Section Segmenter, Chunker, History Store, Reference
Resolver, Artifact Poller, Session Controller) are shallowly embedded as
executable Lean definitions, and the specification claims are settled as
theorems about those definitions.

Python string primitives (`str.split`, `str.join`, `str.startswith`,
truthiness of `str.strip()`) are embedded first; they are used verbatim
by the embedded functions.
-/

namespace BuilderBot

/-- Embedding of Python `text.split(sep)` for a single-character
separator: splits on every occurrence of `sep`, keeping empty pieces
(`"a,,b".split(",") == ["a","","b"]`, `"".split(",") == [""]`). -/
def py_split (text : String) (sep : Char) : List String :=
  (text.data.splitOn sep).map String.mk

/-- Embedding of Python `sep.join(xs)`. -/
def py_join (sep : String) : List String → String
  | [] => ""
  | [x] => x
  | x :: y :: rest => x ++ sep ++ py_join sep (y :: rest)

/-- Helper for embedding `str.startswith`: `leads_with p s` is true when
the character list `p` is an initial segment of `s`. -/
def leads_with : List Char → List Char → Bool
  | [], _ => true
  | _ :: _, [] => false
  | p :: ps, c :: cs => (p == c) && leads_with ps cs

/-- Embedding of Python `s.startswith(pfx)`. -/
def py_startswith (s : String) (pfx : String) : Bool :=
  leads_with pfx.data s.data

/-- Embedding of the truthiness of Python `s.strip()`: true iff `s`
contains at least one non-whitespace character. -/
def py_strip_truthy (s : String) : Bool :=
  s.data.any (fun c => !c.isWhitespace)

/-! Part: Chunker: `partition_string` (bot.py lines 73-105) -/

/-- The `for word in words` loop of `partition_string`, threading the
`partitions` accumulator and the `current_chunk` string exactly as the
Python loop does. -/
def partition_loop (max_chunk_size : Nat) :
    List String → List String → String → List String × String
  | [], partitions, current_chunk => (partitions, current_chunk)
  | word :: rest, partitions, current_chunk =>
    let potential_chunk :=
      if current_chunk = "" then current_chunk ++ word
      else current_chunk ++ " " ++ word
    if potential_chunk.length ≤ max_chunk_size then
      partition_loop max_chunk_size rest partitions potential_chunk
    else
      partition_loop max_chunk_size rest (partitions ++ [current_chunk]) word

/-- Embedding of `partition_string(text, max_chunk_size=1995)`
(bot.py lines 73-105): greedy space-boundary chunking of `text`. -/
def partition_string (text : String) (max_chunk_size : Nat := 1995) :
    List String :=
  if text = "" then []
  else
    let words := py_split text ' '
    let r := partition_loop max_chunk_size words [] ""
    if r.2 = "" then r.1 else r.1 ++ [r.2]

/-! Part: Section Segmenter: `split_into_sections` (bot.py lines 51-68) -/

/-- The character list of the literal `"#### Step "` opening the step
header pattern `^#### Step \d+: `. -/
def step_header_marker : List Char := "#### Step ".data

/-- Embedding of `re.compile(r'^#### Step \d+: ').match(line)` viewed as
a Boolean: the line opens with `"#### Step "`, then one or more digits,
then `": "`. -/
def step_pattern_match (line : String) : Bool :=
  leads_with step_header_marker line.data &&
  (let rest := line.data.drop step_header_marker.length
   !(rest.takeWhile Char.isDigit).isEmpty &&
     leads_with ": ".data (rest.dropWhile Char.isDigit))

/-- The section-boundary test of `split_into_sections` (bot.py line 59):
`line.startswith('#### ') or step_pattern.match(line)`. -/
def section_boundary (line : String) : Bool :=
  py_startswith line "#### " || step_pattern_match line

/-- The `for line in lines` loop of `split_into_sections`, threading
`sections` and `current_section` exactly as the Python loop does, and
performing the trailing `if current_section:` append at the end. -/
def split_into_sections_loop :
    List String → List String → List String → List String
  | [], sections, current_section =>
    if current_section.isEmpty then sections
    else sections ++ [py_join "\n" current_section]
  | line :: rest, sections, current_section =>
    if section_boundary line then
      split_into_sections_loop rest
        (if current_section.isEmpty then sections
         else sections ++ [py_join "\n" current_section]) [line]
    else
      split_into_sections_loop rest sections (current_section ++ [line])

/-- Embedding of `split_into_sections(text)` (bot.py lines 51-68). -/
def split_into_sections (text : String) : List String :=
  split_into_sections_loop (py_split text '\n') [] []

/-- The step-collection loop of the new-build path (bot.py lines
423-429): keeps the sections whose first line matches the step header
pattern (the Python guard `if lines and step_pattern.match(lines[0])`).
The resulting list is the `steps_list` of `on_message`. -/
def steps_list_of (sections : List String) : List String :=
  sections.filter (fun sec =>
    match py_split sec '\n' with
    | [] => false
    | line :: _ => step_pattern_match line)

/-! Part: History Store (bot.py lines 249-260, 449-453).

The cache is the global pair `message_history` (a Python dict) and
`head_index`, with capacity `MAX_HISTORY_LEN = 2`.  The dict is embedded
as a function `Nat → Option Build`; `push_build` only ever writes at key
`head_index`, and `head_index` is always reduced `% MAX_HISTORY_LEN`, so
every key ever written is `< MAX_HISTORY_LEN` — dict truthiness
(`if message_history:`) is therefore the emptiness test over the keys
below `MAX_HISTORY_LEN`. -/

/-- A Build is the `steps_list` value stored in `message_history`: the
list of step sections of one generation response. -/
abbrev Build := List String

/-- The capacity `MAX_HISTORY_LEN = 2` (bot.py line 251). -/
def MAX_HISTORY_LEN : Nat := 2

/-- The cache state: the `message_history` dict and the `head_index`
cursor (bot.py lines 249-250). -/
structure CacheState where
  message_history : Nat → Option Build
  head_index : Nat

/-- The initial cache state: `message_history = {}`, `head_index = 0`. -/
def initial_cache : CacheState :=
  { message_history := fun _ => none, head_index := 0 }

/-- Embedding of `increment_head_index` (bot.py lines 257-260):
`head_index = (head_index + 1) % MAX_HISTORY_LEN`. -/
def increment_head_index (head_index : Nat) : Nat :=
  (head_index + 1) % MAX_HISTORY_LEN

/-- The push performed by the new-build path (bot.py lines 452-453):
`message_history[head_index] = steps_list; increment_head_index()`. -/
def push_build (s : CacheState) (b : Build) : CacheState :=
  { message_history := fun k =>
      if k = s.head_index then some b else s.message_history k,
    head_index := increment_head_index s.head_index }

/-- Pushing a list of builds in order. -/
def push_all (s : CacheState) (bs : List Build) : CacheState :=
  bs.foldl push_build s

/-- Embedding of `build_index in message_history`. -/
def dict_contains (s : CacheState) (k : Nat) : Bool :=
  (s.message_history k).isSome

/-- Embedding of the dict truthiness test `if message_history:`
(bot.py line 288); see the section comment for why scanning the keys
below `MAX_HISTORY_LEN` is the dict's key set. -/
def dict_nonempty (s : CacheState) : Bool :=
  (List.range MAX_HISTORY_LEN).any fun k => dict_contains s k

/-- Reading the build `offset` pushes ago: the slot
`(head_index + MAX_HISTORY_LEN - offset) % MAX_HISTORY_LEN`, as computed
at bot.py lines 306/312 (`offset = 1`) and 341 (`offset =
build_past_iter`). -/
def read_offset (s : CacheState) (offset : Nat) : Option Build :=
  s.message_history ((s.head_index + MAX_HISTORY_LEN - offset) % MAX_HISTORY_LEN)

/-! Part: Session Controller dispatch (`on_message`, bot.py lines 262-397)

The two elaboration regexes (lines 298 and 336) are external parsers of
the message text; their `re.findall` results are part of the incoming
message value: `elab_recent_match` holds the step capture of
`r"Bob, please (explain|elaborate).*?step (\d+).*?(prev|past|last)"`,
and `elab_n_ago_match` the step and count captures of
`r"Bob, please (explain|elaborate).*?step (\d+).*?(\d+) (iteration|sequence|build)"`.
The prompt extraction of the picture branch and the reply chunking of
the elaboration branches reuse functions embedded above and do not
affect the dispatch outcome, so the outcome records only which branch
completed.  The `Nat` paired with the outcome counts the
`generate_elaboration_image` calls the turn performs (lines 330/374). -/

/-- The observable outcome of one `on_message` dispatch. -/
inductive Outcome where
  /-- The message had none of the four trigger prefixes (line 274). -/
  | ignored
  /-- A `message_history[...]` read at a missing key raised `KeyError`. -/
  | keyError
  /-- The reply "Error, the step seems to be too big or small, ..."
  (lines 308/352). -/
  | stepRangeError
  /-- The reply "You are requesting a build that is not in recent
  memory, ..." (line 346). -/
  | outOfWindowError
  /-- The most-recent-build elaboration completed (lines 300-332). -/
  | elabRecent (step_ID : Nat) (build : Build)
  /-- The N-builds-ago elaboration completed (lines 338-376). -/
  | elabNAgo (step_ID : Nat) (build_past_iter : Nat) (build : Build)
  /-- The "Make me a picture" branch ran (lines 387-393). -/
  | pictureShown
  /-- Fell through to `agent.run` — the new-build path (lines 399-456). -/
  | newBuild
  deriving DecidableEq, Repr

/-- An incoming message: its text plus the `re.findall` capture results
of the two elaboration grammars on that text. -/
structure IncomingMessage where
  content : String
  elab_recent_match : Option Nat
  elab_n_ago_match : Option (Nat × Nat)

/-- The slot read by the most-recent-build branch (lines 306/312). -/
def most_recent_slot (s : CacheState) : Nat :=
  (s.head_index + MAX_HISTORY_LEN - 1) % MAX_HISTORY_LEN

/-- The slot computed by the N-builds-ago branch (line 341):
`(head_index + MAX_HISTORY_LEN - build_past_iter) % MAX_HISTORY_LEN` in
Python integer arithmetic, whose `%` is the Euclidean `Int.emod`. -/
def n_ago_slot (s : CacheState) (build_past_iter : Nat) : Nat :=
  (((s.head_index : Int) + (MAX_HISTORY_LEN : Int) - (build_past_iter : Int))
    % (MAX_HISTORY_LEN : Int)).toNat

/-- The body of the `if message_history:` block (lines 288-376): the two
elaboration grammars tried in order; `none` means neither matched and
control falls through past the block. -/
def elab_dispatch (msg : IncomingMessage) (s : CacheState) :
    Option (Outcome × Nat) :=
  match msg.elab_recent_match with
  | some step_ID =>
    match s.message_history (most_recent_slot s) with
    | none => some (.keyError, 0)
    | some build =>
      if step_ID < 1 || build.length < step_ID then some (.stepRangeError, 0)
      else some (.elabRecent step_ID build, 1)
  | none =>
    match msg.elab_n_ago_match with
    | some (step_ID, build_past_iter) =>
      let build_index := n_ago_slot s build_past_iter
      if !dict_contains s build_index || build_past_iter > MAX_HISTORY_LEN then
        some (.outOfWindowError, 0)
      else
        match s.message_history build_index with
        | none => some (.keyError, 0)
        | some build =>
          if step_ID < 1 || build.length < step_ID then
            some (.stepRangeError, 0)
          else some (.elabNAgo step_ID build_past_iter build, 1)
    | none => none

/-- The trigger-prefix filter of `on_message` (lines 274-282). -/
def build_trigger_ok (content : String) : Bool :=
  py_startswith content "Bob, please build me" ||
  py_startswith content "Make me a picture" ||
  py_startswith content "Bob, please explain" ||
  py_startswith content "Bob, please elaborate"

/-- Embedding of the `on_message` dispatch (bot.py lines 262-397): the
trigger filter, then the elaboration block guarded by
`if message_history:`, then the picture branch, then fall-through to
`agent.run` (the new-build path).  Returns the outcome and the number of
`generate_elaboration_image` calls performed. -/
def on_message (msg : IncomingMessage) (s : CacheState) : Outcome × Nat :=
  if !build_trigger_ok msg.content then (.ignored, 0)
  else
    match (if dict_nonempty s then elab_dispatch msg s else none) with
    | some r => r
    | none =>
      if py_startswith msg.content "Make me a picture" then (.pictureShown, 0)
      else (.newBuild, 0)

/-- The History Store state invariant of the controller: the write
cursor is in range, and when the dict is non-empty the slot
`(head_index - 1 + MAX_HISTORY_LEN) % MAX_HISTORY_LEN` (the one the
most-recent-build branch reads without a guard) holds a build. -/
def hist_inv (s : CacheState) : Prop :=
  s.head_index < MAX_HISTORY_LEN ∧
  (dict_nonempty s = true → dict_contains s (most_recent_slot s) = true)

/-! Part: Artifact Poller (bot.py lines 131-147, 173-189, 216-232)

The three image helpers share one polling loop: while
`time.time() - start_time < max_wait_time`, check the job status, send
the embed and stop if the status is `"Ready"`, else `asyncio.sleep(1)`.
In the spec's idealized time units each iteration costs exactly one unit
(the sleep), so the loop polls at elapsed times `0, 1, ..., 29`.  The
job is embedded as the function `check` from elapsed time to the status
response (its `status` string and `result.sample` artifact). -/

/-- The fields of the status response that the loop inspects:
`status_result.get('status', '')` and `status_result['result']['sample']`. -/
structure ImageStatus where
  status : String
  sample : String

/-- The deadline `max_wait_time = 30` (bot.py lines 132/174/217). -/
def max_wait_time : Nat := 30

/-- The terminal outcome of one polled image job. -/
inductive PollOutcome where
  /-- The embed with the result artifact was sent. -/
  | ready (sample : String)
  /-- "Image generation timed out. Please try again later." -/
  | timedOut
  deriving DecidableEq, Repr

/-- One polling loop: returns the outcome, the number of result embeds
sent, and the list of elapsed times at which the status was queried. -/
def poll_loop (check : Nat → ImageStatus) :
    Nat → Nat → PollOutcome × Nat × List Nat
  | _, 0 => (.timedOut, 0, [])
  | elapsed, fuel + 1 =>
    let st := check elapsed
    if st.status = "Ready" then (.ready st.sample, 1, [elapsed])
    else
      let r := poll_loop check (elapsed + 1) fuel
      (r.1, r.2.1, elapsed :: r.2.2)

/-- The wait loop of `generate_and_show_image` /
`generate_elaboration_image`, started at elapsed time 0 with the
30-unit deadline. -/
def image_wait (check : Nat → ImageStatus) : PollOutcome × Nat × List Nat :=
  poll_loop check 0 max_wait_time

/-! Part: Session Controller new-build tail (bot.py lines 399-453)

After `agent.run` returns, the response (post
`bold_units_and_dimensions`, a regex substitution that is part of the
text pipeline upstream of segmentation) is segmented, each section's
chunks are sent as replies, up to three step sections get a
`generate_step_image` call, and finally the `steps_list` is pushed into
the cache.  `await message.reply(...)` and the image helpers run network
calls that can raise; which call raises is an input (`EffectEnv`).  An
exception propagates out of `on_message`, aborting the rest of the turn
— in particular the history push at line 452. -/

/-- Which external calls of the new-build tail raise: `reply_raises n`
means the n-th `message.reply(partition)` call raises, `image_raises n`
that the n-th `generate_step_image` call raises. -/
structure EffectEnv where
  reply_raises : Nat → Bool
  image_raises : Nat → Bool

/-- The environment in which no external call fails. -/
def all_ok : EffectEnv :=
  { reply_raises := fun _ => false, image_raises := fun _ => false }

/-- The Python exceptions the tail can raise. -/
inductive PyError where
  /-- The `IndexError` from evaluating `steps_list[0]` (line 440). -/
  | indexError
  /-- An exception out of `message.reply(partition)` (line 437). -/
  | replyError
  /-- An exception out of `generate_step_image` (lines 441/443/445). -/
  | imageError
  deriving DecidableEq, Repr

/-- The accumulating effect log of the section loop. -/
structure LoopSt where
  reply_count : Nat
  replies : List String
  images : List String

/-- The `for partition in partitioned_text: await message.reply(partition)`
loop (lines 436-437); a raising reply aborts with the log so far. -/
def send_partitions (env : EffectEnv) :
    List String → LoopSt → Except (PyError × LoopSt) LoopSt
  | [], st => .ok st
  | p :: rest, st =>
    if env.reply_raises st.reply_count then .error (.replyError, st)
    else
      send_partitions env rest
        { st with reply_count := st.reply_count + 1, replies := st.replies ++ [p] }

/-- One `generate_step_image` call (the request is issued, then the call
may raise while polling/replying). -/
def do_image (env : EffectEnv) (sec : String) (st : LoopSt) :
    Except (PyError × LoopSt) LoopSt :=
  let st' := { st with images := st.images ++ [sec] }
  if env.image_raises st.images.length then .error (.imageError, st')
  else .ok st'

/-- The image-selection branch of the section loop (lines 439-445):
`section == steps_list[0]`, the middle step when more than two, the last
step when more than one.  `steps_list[0]` on an empty list raises
`IndexError`.  The Python `and` short-circuits, so the middle/last
subscripts are only evaluated under their length guards. -/
def image_branch (env : EffectEnv) (steps_list : List String) (sec : String)
    (st : LoopSt) : Except (PyError × LoopSt) LoopSt :=
  match steps_list with
  | [] => .error (.indexError, st)
  | s0 :: _ =>
    if sec = s0 then do_image env sec st
    else if steps_list.length > 2 ∧ sec = steps_list.getD (steps_list.length / 2) "" then
      do_image env sec st
    else if steps_list.length > 1 ∧ sec = steps_list.getD (steps_list.length - 1) "" then
      do_image env sec st
    else .ok st

/-- The `for section in sections` loop of the new-build tail (lines
432-445): sections whose `strip()` is empty are skipped; otherwise the
section's chunks are sent and the image branch runs. -/
def run_sections (env : EffectEnv) (steps_list : List String) :
    List String → LoopSt → Except (PyError × LoopSt) LoopSt
  | [], st => .ok st
  | sec :: rest, st =>
    if py_strip_truthy sec then
      match send_partitions env (partition_string sec) st with
      | .error e => .error e
      | .ok st1 =>
        match image_branch env steps_list sec st1 with
        | .error e => .error e
        | .ok st2 => run_sections env steps_list rest st2
    else run_sections env steps_list rest st

/-- The result of one new-build turn. -/
structure NewBuildResult where
  replies : List String
  images : List String
  /-- How many times `message_history[head_index] = steps_list` ran. -/
  pushes : Nat
  state : CacheState
  error : Option PyError

/-- Embedding of the new-build tail of `on_message` (lines 399-453):
`response` is `agent.run`'s result after `bold_units_and_dimensions`
(`none` embeds Python `None` — generation refused, line 405); on text,
the sections are segmented, replied and illustrated, and only if the
whole loop finishes without an exception is the build pushed (lines
452-453). -/
def new_build_turn (env : EffectEnv) (s : CacheState) (response : Option String) :
    NewBuildResult :=
  match response with
  | none => { replies := [], images := [], pushes := 0, state := s, error := none }
  | some resp =>
    let sections := split_into_sections resp
    let steps_list := steps_list_of sections
    match run_sections env steps_list sections ⟨0, [], []⟩ with
    | .error (e, st) =>
      { replies := st.replies, images := st.images, pushes := 0,
        state := s, error := some e }
    | .ok st =>
      { replies := st.replies, images := st.images, pushes := 1,
        state := push_build s steps_list, error := none }

/-- The images accumulated by a section loop run, whether or not it
ended in an exception. -/
def images_of : Except (PyError × LoopSt) LoopSt → List String
  | .ok st => st.images
  | .error (_, st) => st.images

/-- The condition under which the image-selection branch (bot.py lines
439-445) issues a `generate_step_image` request for `sec`: the section
text equals `steps_list[0]`, or the middle entry when there are more
than two steps, or the last entry when there is more than one. -/
def image_trigger (steps_list : List String) (sec : String) : Bool :=
  match steps_list with
  | [] => false
  | s0 :: _ =>
    (sec == s0) ||
    (decide (steps_list.length > 2) &&
      (sec == steps_list.getD (steps_list.length / 2) "")) ||
    (decide (steps_list.length > 1) &&
      (sec == steps_list.getD (steps_list.length - 1) ""))

/-- The (at most three) section texts the image-selection branch can
ever target: first, middle and last entry of `steps_list`. -/
def image_targets (steps_list : List String) : List String :=
  match steps_list with
  | [] => []
  | s0 :: _ =>
    [s0, steps_list.getD (steps_list.length / 2) "",
     steps_list.getD (steps_list.length - 1) ""]

/-! Part: Concrete inputs used by counterexamples and witnesses -/

/-- The request "Bob, please explain step 2 from the previous build":
the most-recent-build grammar matches with step capture 2. -/
def msg_explain_prev : IncomingMessage :=
  { content := "Bob, please explain step 2 from the previous build",
    elab_recent_match := some 2, elab_n_ago_match := none }

/-- The request "Bob, please explain step 1 from 0 builds ago": the
N-builds-ago grammar matches with step capture 1 and count capture 0. -/
def msg_explain_zero_ago : IncomingMessage :=
  { content := "Bob, please explain step 1 from 0 builds ago",
    elab_recent_match := none, elab_n_ago_match := some (1, 0) }

/-- The request "Bob, please explain step 1 from 1 build ago". -/
def msg_explain_one_ago : IncomingMessage :=
  { content := "Bob, please explain step 1 from 1 build ago",
    elab_recent_match := none, elab_n_ago_match := some (1, 1) }

/-- A one-step build used as a pushed value. -/
def build_A : Build := ["#### Step 1: A"]

/-- Another one-step build used as a pushed value. -/
def build_B : Build := ["#### Step 1: B"]

/-- The cache after pushing `build_A` then `build_B`: both slots filled,
`head_index` back at 0. -/
def full_cache : CacheState := push_build (push_build initial_cache build_A) build_B

/-- The environment in which the very first `message.reply` raises. -/
def env_first_reply_raises : EffectEnv :=
  { reply_raises := fun n => n = 0, image_raises := fun _ => false }

/-- A generation response consisting of four identical step sections. -/
def dup_response : String :=
  "#### Step 1: A\n#### Step 1: A\n#### Step 1: A\n#### Step 1: A"

/-- A three-step generation response. -/
def three_step_response : String :=
  "#### Step 1: A\n#### Step 2: B\n#### Step 3: C"

/-- A status oracle whose job becomes `Ready` at the third polling
interval. -/
def check_ready_at_3 : Nat → ImageStatus :=
  fun t => if t = 3 then ⟨"Ready", "url"⟩ else ⟨"Pending", ""⟩

/-- A status oracle whose job never becomes `Ready`. -/
def check_never_ready : Nat → ImageStatus :=
  fun _ => ⟨"Pending", ""⟩

/-! Part: History Store lemmas -/

theorem push_build_head_lt (s : CacheState) (b : Build) :
    (push_build s b).head_index < MAX_HISTORY_LEN :=
  Nat.mod_lt _ (by decide)

theorem push_all_head_lt (bs : List Build) :
    ∀ s : CacheState, s.head_index < MAX_HISTORY_LEN →
      (push_all s bs).head_index < MAX_HISTORY_LEN := by
  induction bs with
  | nil => intro s hs; exact hs
  | cons b bs ih =>
    intro s _
    exact ih (push_build s b) (push_build_head_lt s b)

theorem push_all_append (s : CacheState) (l1 l2 : List Build) :
    push_all s (l1 ++ l2) = push_all (push_all s l1) l2 := by
  simp [push_all, List.foldl_append]

theorem read_offset_one_push (s : CacheState) (b : Build)
    (h : s.head_index < MAX_HISTORY_LEN) :
    read_offset (push_build s b) 1 = some b := by
  have h2 : s.head_index = 0 ∨ s.head_index = 1 := by
    simp only [MAX_HISTORY_LEN] at h; omega
  rcases h2 with h0 | h0 <;>
    simp [read_offset, push_build, increment_head_index, MAX_HISTORY_LEN, h0]

theorem read_offset_two_push (s : CacheState) (b : Build)
    (h : s.head_index < MAX_HISTORY_LEN) :
    read_offset (push_build s b) MAX_HISTORY_LEN = read_offset s 1 := by
  have h2 : s.head_index = 0 ∨ s.head_index = 1 := by
    simp only [MAX_HISTORY_LEN] at h; omega
  rcases h2 with h0 | h0 <;>
    simp [read_offset, push_build, increment_head_index, MAX_HISTORY_LEN, h0]

/-- C1. For the History Store with capacity `K = MAX_HISTORY_LEN`, after
pushing builds `B1..Bn` in order with `n ≥ K`, reading offset 1 yields
`Bn` and reading offset `K` yields `B(n-K+1)`; every push writes the
build into slot `head_index` and then advances `head_index` to
`(head_index + 1) % K`, the written slot being exactly the slot that
offset `K` (the oldest build of the window) reads. -/
theorem claim_C1_history_window (bs : List Build)
    (h : MAX_HISTORY_LEN ≤ bs.length) :
    read_offset (push_all initial_cache bs) 1 = bs[bs.length - 1]? ∧
    read_offset (push_all initial_cache bs) MAX_HISTORY_LEN
      = bs[bs.length - MAX_HISTORY_LEN]? ∧
    (∀ (s : CacheState) (b : Build),
      (push_build s b).message_history s.head_index = some b ∧
      (push_build s b).head_index = (s.head_index + 1) % MAX_HISTORY_LEN ∧
      (s.head_index < MAX_HISTORY_LEN →
        read_offset s MAX_HISTORY_LEN = s.message_history s.head_index)) := by
  rcases List.eq_nil_or_concat bs with rfl | ⟨l, b, rfl⟩
  · simp [MAX_HISTORY_LEN] at h
  · simp only [List.concat_eq_append] at h ⊢
    rcases List.eq_nil_or_concat l with rfl | ⟨l', a, rfl⟩
    · simp [MAX_HISTORY_LEN] at h
    · simp only [List.concat_eq_append] at h ⊢
      have hhead : (push_all initial_cache l').head_index < MAX_HISTORY_LEN :=
        push_all_head_lt l' initial_cache (by simp [initial_cache, MAX_HISTORY_LEN])
      have e1 : push_all initial_cache (l' ++ [a] ++ [b])
          = push_build (push_build (push_all initial_cache l') a) b := by
        simp [push_all_append, push_all]
      have hlen : (l' ++ [a] ++ [b]).length = l'.length + 2 := by simp
      refine ⟨?_, ?_, ?_⟩
      · rw [e1, read_offset_one_push _ _ (push_build_head_lt _ _)]
        rw [hlen]
        have : l' ++ [a] ++ [b] = l' ++ ([a] ++ [b]) := by simp
        rw [this, List.getElem?_append_right (by simp)]
        simp
      · rw [e1, read_offset_two_push _ _ (push_build_head_lt _ _),
          read_offset_one_push _ _ hhead]
        rw [hlen]
        have : l' ++ [a] ++ [b] = l' ++ ([a] ++ [b]) := by simp
        rw [this, List.getElem?_append_right (by simp [MAX_HISTORY_LEN])]
        simp [MAX_HISTORY_LEN]
      · intro s b'
        refine ⟨by simp [push_build], rfl, ?_⟩
        intro hs
        have h2 : s.head_index = 0 ∨ s.head_index = 1 := by
          simp only [MAX_HISTORY_LEN] at hs; omega
        rcases h2 with h0 | h0 <;> simp [read_offset, MAX_HISTORY_LEN, h0]

/-- Witness for C1 at the concrete push sequence `[build_A, build_B]`. -/
theorem claim_C1_history_window_witness :
    read_offset (push_all initial_cache [build_A, build_B]) 1
      = [build_A, build_B][2 - 1]? ∧
    read_offset (push_all initial_cache [build_A, build_B]) MAX_HISTORY_LEN
      = [build_A, build_B][2 - MAX_HISTORY_LEN]? ∧
    (∀ (s : CacheState) (b : Build),
      (push_build s b).message_history s.head_index = some b ∧
      (push_build s b).head_index = (s.head_index + 1) % MAX_HISTORY_LEN ∧
      (s.head_index < MAX_HISTORY_LEN →
        read_offset s MAX_HISTORY_LEN = s.message_history s.head_index)) :=
  claim_C1_history_window [build_A, build_B] (by decide)

/-! Part: Dispatch characterization lemmas -/

theorem on_message_of_dispatch (msg : IncomingMessage) (s : CacheState)
    (r : Outcome × Nat) (htrig : build_trigger_ok msg.content = true)
    (hne : dict_nonempty s = true) (hd : elab_dispatch msg s = some r) :
    on_message msg s = r := by
  unfold on_message
  simp [htrig, hne, hd]

theorem on_message_fallthrough (msg : IncomingMessage) (s : CacheState)
    (htrig : build_trigger_ok msg.content = true)
    (hd : dict_nonempty s = false ∨ elab_dispatch msg s = none) :
    on_message msg s =
      (if py_startswith msg.content "Make me a picture" then (.pictureShown, 0)
       else (.newBuild, 0)) := by
  unfold on_message
  rcases hd with hd | hd <;> simp [htrig, hd]

theorem elab_dispatch_recent (msg : IncomingMessage) (s : CacheState)
    (step_ID : Nat) (hm1 : msg.elab_recent_match = some step_ID) :
    elab_dispatch msg s =
      match s.message_history (most_recent_slot s) with
      | none => some (.keyError, 0)
      | some build =>
        if step_ID < 1 || build.length < step_ID then some (.stepRangeError, 0)
        else some (.elabRecent step_ID build, 1) := by
  simp only [elab_dispatch, hm1]

theorem elab_dispatch_n_ago (msg : IncomingMessage) (s : CacheState)
    (step_ID M : Nat) (hm1 : msg.elab_recent_match = none)
    (hm2 : msg.elab_n_ago_match = some (step_ID, M)) :
    elab_dispatch msg s =
      if dict_contains s (n_ago_slot s M) = false ∨ MAX_HISTORY_LEN < M then
        some (.outOfWindowError, 0)
      else
        match s.message_history (n_ago_slot s M) with
        | none => some (.keyError, 0)
        | some build =>
          if step_ID < 1 || build.length < step_ID then some (.stepRangeError, 0)
          else some (.elabNAgo step_ID M build, 1) := by
  simp only [elab_dispatch, hm1, hm2]
  by_cases h1 : dict_contains s (n_ago_slot s M) <;>
    by_cases h2 : MAX_HISTORY_LEN < M <;>
      simp [h1, h2]

theorem elab_dispatch_no_match (msg : IncomingMessage) (s : CacheState)
    (hm1 : msg.elab_recent_match = none)
    (hm2 : msg.elab_n_ago_match = none) :
    elab_dispatch msg s = none := by
  simp only [elab_dispatch, hm1, hm2]

/-! Part: C9: the History Store invariant -/

theorem most_recent_slot_push (s : CacheState) (b : Build)
    (h : s.head_index < MAX_HISTORY_LEN) :
    most_recent_slot (push_build s b) = s.head_index := by
  have h2 : s.head_index = 0 ∨ s.head_index = 1 := by
    simp only [MAX_HISTORY_LEN] at h; omega
  rcases h2 with h0 | h0 <;>
    simp [most_recent_slot, push_build, increment_head_index, MAX_HISTORY_LEN, h0]

/-- C9. The History Store invariant — `head_index` in
`[0, MAX_HISTORY_LEN)` and, whenever `message_history` is non-empty, a
build present in slot `(head_index - 1 + MAX_HISTORY_LEN) %
MAX_HISTORY_LEN` — holds of the initial state and is preserved by every
push; consequently the most-recent-build branch's unguarded
`message_history[...]` read never raises `KeyError` in a turn started
from an invariant state. -/
theorem claim_C9_invariant :
    hist_inv initial_cache ∧
    (∀ (s : CacheState) (b : Build), hist_inv s → hist_inv (push_build s b)) ∧
    (∀ (msg : IncomingMessage) (s : CacheState), hist_inv s →
      (on_message msg s).1 ≠ .keyError) := by
  refine ⟨⟨by decide, by decide⟩, ?_, ?_⟩
  · rintro s b ⟨h1, _⟩
    refine ⟨push_build_head_lt s b, ?_⟩
    intro _
    rw [most_recent_slot_push s b h1]
    simp [dict_contains, push_build]
  · intro msg s hinv
    by_cases htrig : build_trigger_ok msg.content
    case neg =>
      simp only [Bool.not_eq_true] at htrig
      simp [on_message, htrig]
    case pos =>
    by_cases hne : dict_nonempty s
    case neg =>
      simp only [Bool.not_eq_true] at hne
      rw [on_message_fallthrough msg s htrig (Or.inl hne)]
      split <;> simp
    case pos =>
    cases hm1 : msg.elab_recent_match with
    | some step_ID =>
      have hb := hinv.2 hne
      rcases hh : s.message_history (most_recent_slot s) with _ | build
      · simp [dict_contains, hh] at hb
      · have hd : elab_dispatch msg s =
            some (if step_ID < 1 || build.length < step_ID then
                    ((Outcome.stepRangeError : Outcome), (0 : Nat))
                  else (.elabRecent step_ID build, 1)) := by
          rw [elab_dispatch_recent msg s step_ID hm1, hh, apply_ite some]
        rw [on_message_of_dispatch msg s _ htrig hne hd]
        split <;> simp
    | none =>
      cases hm2 : msg.elab_n_ago_match with
      | none =>
        rw [on_message_fallthrough msg s htrig
          (Or.inr (elab_dispatch_no_match msg s hm1 hm2))]
        split <;> simp
      | some p =>
        obtain ⟨step_ID, M⟩ := p
        by_cases hw : dict_contains s (n_ago_slot s M) = false ∨ MAX_HISTORY_LEN < M
        · have hd : elab_dispatch msg s = some (.outOfWindowError, 0) := by
            rw [elab_dispatch_n_ago msg s step_ID M hm1 hm2, if_pos hw]
          rw [on_message_of_dispatch msg s _ htrig hne hd]
          simp
        · push_neg at hw
          rcases hh : s.message_history (n_ago_slot s M) with _ | build
          · exact absurd (by simp [dict_contains, hh]) hw.1
          · have hd : elab_dispatch msg s =
                some (if step_ID < 1 || build.length < step_ID then
                        ((Outcome.stepRangeError : Outcome), (0 : Nat))
                      else (.elabNAgo step_ID M build, 1)) := by
              rw [elab_dispatch_n_ago msg s step_ID M hm1 hm2,
                if_neg (by push_neg; exact hw), hh, apply_ite some]
            rw [on_message_of_dispatch msg s _ htrig hne hd]
            split <;> simp

/-- Witness for C9: the invariant holds after one concrete push, and the
dispatch of a concrete elaboration message from that state does not
raise `KeyError`. -/
theorem claim_C9_invariant_witness :
    hist_inv (push_build initial_cache build_A) ∧
    (on_message msg_explain_prev (push_build initial_cache build_A)).1
      ≠ .keyError :=
  ⟨claim_C9_invariant.2.1 initial_cache build_A claim_C9_invariant.1,
   claim_C9_invariant.2.2 msg_explain_prev (push_build initial_cache build_A)
     (claim_C9_invariant.2.1 initial_cache build_A claim_C9_invariant.1)⟩

/-! Part: C2: elaboration requests against an empty store -/

/-- C2 counterexample.  With the History Store empty, the elaboration
request "Bob, please explain step 2 from the previous build" (whose
most-recent-build grammar matches with step capture 2) is not answered
with any distinguishable error: the `if message_history:` guard skips
the resolver and the request falls through to the new-build handler
(`agent.run`). -/
theorem claim_C2_counterexample :
    dict_nonempty initial_cache = false ∧
    on_message msg_explain_prev initial_cache = (.newBuild, 0) ∧
    (on_message msg_explain_prev initial_cache).1 ≠ .outOfWindowError ∧
    (on_message msg_explain_prev initial_cache).1 ≠ .stepRangeError := by
  decide

/-- C2 amended.  An elaboration request arriving when the History Store
is empty is not resolved as an elaboration at all and produces no
distinguishable error: the dispatch ends in the ignored, picture, or
new-build (`agent.run`) outcome. -/
theorem claim_C2_empty_store (msg : IncomingMessage) (s : CacheState)
    (h : dict_nonempty s = false) :
    (on_message msg s).1 = .ignored ∨ (on_message msg s).1 = .pictureShown ∨
      (on_message msg s).1 = .newBuild := by
  by_cases htrig : build_trigger_ok msg.content
  · rw [on_message_fallthrough msg s htrig (Or.inl h)]
    split <;> simp
  · simp only [Bool.not_eq_true] at htrig
    simp [on_message, htrig]

/-- Witness for C2 (amended) at the concrete empty-store request. -/
theorem claim_C2_empty_store_witness :
    (on_message msg_explain_prev initial_cache).1 = .ignored ∨
    (on_message msg_explain_prev initial_cache).1 = .pictureShown ∨
    (on_message msg_explain_prev initial_cache).1 = .newBuild :=
  claim_C2_empty_store msg_explain_prev initial_cache (by decide)

/-! Part: C3: the N-builds-ago window check -/

/-- C3 counterexample.  With the store full (both slots written), the
request "Bob, please explain step 1 from 0 builds ago" — extracted
offset `M = 0` — is accepted and resolved (to the oldest build), not
rejected with the out-of-window error. -/
theorem claim_C3_counterexample :
    on_message msg_explain_zero_ago full_cache = (.elabNAgo 1 0 build_A, 1) ∧
    (on_message msg_explain_zero_ago full_cache).1 ≠ .outOfWindowError := by
  decide

/-- C3 amended.  For a request matching the N-builds-ago grammar with
extracted offset `M`, the branch replies with the out-of-window error
exactly when `M > MAX_HISTORY_LEN` or the slot
`(head_index + MAX_HISTORY_LEN - M) % MAX_HISTORY_LEN` is unwritten; in
particular `M = 0` is rejected only while that slot (the write
cursor's) is unwritten, and any `M ≤ MAX_HISTORY_LEN` whose slot holds
a build with enough steps is accepted — including `M = 0`. -/
theorem claim_C3_window_check (msg : IncomingMessage) (s : CacheState)
    (step_ID M : Nat)
    (htrig : build_trigger_ok msg.content = true)
    (hne : dict_nonempty s = true)
    (hrec : msg.elab_recent_match = none)
    (hm : msg.elab_n_ago_match = some (step_ID, M)) :
    ((on_message msg s).1 = .outOfWindowError ↔
      (MAX_HISTORY_LEN < M ∨ dict_contains s (n_ago_slot s M) = false)) ∧
    (∀ build : Build, s.message_history (n_ago_slot s M) = some build →
      M ≤ MAX_HISTORY_LEN → 1 ≤ step_ID → step_ID ≤ build.length →
      on_message msg s = (.elabNAgo step_ID M build, 1)) := by
  constructor
  · by_cases hw : dict_contains s (n_ago_slot s M) = false ∨ MAX_HISTORY_LEN < M
    · have hd : elab_dispatch msg s = some (.outOfWindowError, 0) := by
        rw [elab_dispatch_n_ago msg s step_ID M hrec hm, if_pos hw]
      rw [on_message_of_dispatch msg s _ htrig hne hd]
      simpa using Or.symm hw
    · push_neg at hw
      rcases hh : s.message_history (n_ago_slot s M) with _ | build
      · exact absurd (by simp [dict_contains, hh]) hw.1
      · have hd : elab_dispatch msg s =
            some (if step_ID < 1 || build.length < step_ID then
                    ((Outcome.stepRangeError : Outcome), (0 : Nat))
                  else (.elabNAgo step_ID M build, 1)) := by
          rw [elab_dispatch_n_ago msg s step_ID M hrec hm,
            if_neg (by push_neg; exact hw), hh, apply_ite some]
        rw [on_message_of_dispatch msg s _ htrig hne hd]
        constructor
        · intro hout
          exfalso
          revert hout
          split <;> simp
        · rintro (h | h)
          · exact absurd h (Nat.not_lt.mpr hw.2)
          · exact absurd h hw.1
  · intro build hb hM h1 h2
    have hd : elab_dispatch msg s = some (.elabNAgo step_ID M build, 1) := by
      rw [elab_dispatch_n_ago msg s step_ID M hrec hm,
        if_neg (by push_neg; exact ⟨by simp [dict_contains, hb], hM⟩), hb]
      simp [Nat.not_lt.mpr h1, Nat.not_lt.mpr h2]
    exact on_message_of_dispatch msg s _ htrig hne hd

/-- Witness for C3 (amended): the in-window request `M = 1` against the
full store is accepted and resolves to the build pushed one push ago. -/
theorem claim_C3_window_check_witness :
    on_message msg_explain_one_ago full_cache = (.elabNAgo 1 1 build_B, 1) :=
  (claim_C3_window_check msg_explain_one_ago full_cache 1 1
      (by decide) (by decide) rfl rfl).2 build_B
    (by decide) (by decide) (by decide) (by decide)


/-! Part: C7: the Artifact Poller -/

theorem poll_loop_ready (check : Nat → ImageStatus) :
    ∀ (fuel elapsed : Nat),
      (∃ t, elapsed ≤ t ∧ t < elapsed + fuel ∧ (check t).status = "Ready") →
      ∃ t, elapsed ≤ t ∧ t < elapsed + fuel ∧ (check t).status = "Ready" ∧
        (poll_loop check elapsed fuel).1 = .ready ((check t).sample) ∧
        (poll_loop check elapsed fuel).2.1 = 1 := by
  intro fuel
  induction fuel with
  | zero =>
    rintro elapsed ⟨t, h1, h2, _⟩
    omega
  | succ fuel ih =>
    rintro elapsed ⟨t, h1, h2, h3⟩
    by_cases hr : (check elapsed).status = "Ready"
    · exact ⟨elapsed, le_refl _, by omega, hr,
        by simp [poll_loop, hr], by simp [poll_loop, hr]⟩
    · have ht : elapsed + 1 ≤ t := by
        rcases Nat.lt_or_ge elapsed (t + 1) with h | h
        · rcases Nat.eq_or_lt_of_le h1 with rfl | h'
          · exact absurd h3 hr
          · omega
        · omega
      obtain ⟨t', h1', h2', h3', h4', h5'⟩ :=
        ih (elapsed + 1) ⟨t, ht, by omega, h3⟩
      exact ⟨t', by omega, by omega, h3',
        by simpa [poll_loop, hr] using h4',
        by simpa [poll_loop, hr] using h5'⟩

theorem poll_loop_timeout (check : Nat → ImageStatus) :
    ∀ (fuel elapsed : Nat),
      (∀ t, elapsed ≤ t → t < elapsed + fuel → (check t).status ≠ "Ready") →
      (poll_loop check elapsed fuel).1 = .timedOut ∧
        (poll_loop check elapsed fuel).2.1 = 0 := by
  intro fuel
  induction fuel with
  | zero => intro elapsed _; simp [poll_loop]
  | succ fuel ih =>
    intro elapsed h
    have hr : (check elapsed).status ≠ "Ready" :=
      h elapsed (le_refl _) (by omega)
    have := ih (elapsed + 1) (fun t ht1 ht2 => h t (by omega) (by omega))
    exact ⟨by simpa [poll_loop, hr] using this.1,
      by simpa [poll_loop, hr] using this.2⟩

theorem poll_loop_times (check : Nat → ImageStatus) :
    ∀ (fuel elapsed : Nat),
      ∃ k, k ≤ fuel ∧ (poll_loop check elapsed fuel).2.2 = List.range' elapsed k ∧
        (0 < fuel → 0 < k) := by
  intro fuel
  induction fuel with
  | zero => intro elapsed; exact ⟨0, le_refl _, by simp [poll_loop], by omega⟩
  | succ fuel ih =>
    intro elapsed
    by_cases hr : (check elapsed).status = "Ready"
    · refine ⟨1, by omega, ?_, by omega⟩
      simp [poll_loop, hr, List.range'_succ]
    · obtain ⟨k, hk1, hk2, _⟩ := ih (elapsed + 1)
      refine ⟨k + 1, by omega, ?_, by omega⟩
      simp [poll_loop, hr, List.range'_succ, hk2]

/-- C7. The polling loop queries the job status at consecutive time
units starting at 0 (a fixed 1-unit interval); if some poll within the
30-unit deadline observes status `"Ready"`, the result artifact is
reported exactly once (one embed send) with outcome `ready`; if no poll
before the deadline observes `"Ready"`, the outcome is `timedOut` with
no result report; the two outcomes are mutually exclusive. -/
theorem claim_C7_poller (check : Nat → ImageStatus) :
    ((∃ t, t < max_wait_time ∧ (check t).status = "Ready") →
      ∃ t, t < max_wait_time ∧ (check t).status = "Ready" ∧
        (image_wait check).1 = .ready ((check t).sample) ∧
        (image_wait check).2.1 = 1) ∧
    ((∀ t, t < max_wait_time → (check t).status ≠ "Ready") →
      (image_wait check).1 = .timedOut ∧ (image_wait check).2.1 = 0) ∧
    (∀ sample, (image_wait check).1 = .ready sample →
      (image_wait check).1 ≠ .timedOut) ∧
    (∃ k, 0 < k ∧ k ≤ max_wait_time ∧ (image_wait check).2.2 = List.range k) := by
  refine ⟨?_, ?_, ?_, ?_⟩
  · rintro ⟨t, h1, h2⟩
    obtain ⟨t', h1', h2', h3', h4', h5'⟩ :=
      poll_loop_ready check max_wait_time 0 ⟨t, by omega, by omega, h2⟩
    exact ⟨t', by omega, h3', h4', h5'⟩
  · intro h
    exact poll_loop_timeout check max_wait_time 0
      (fun t _ ht => h t (by omega))
  · intro sample h
    rw [h]
    simp
  · obtain ⟨k, hk1, hk2, hk3⟩ := poll_loop_times check max_wait_time 0
    refine ⟨k, hk3 (by simp [max_wait_time]), hk1, ?_⟩
    rw [List.range_eq_range']
    exact hk2

/-- Witness for C7: a job ready at the third interval is reported ready
exactly once; a never-ready job times out with no report. -/
theorem claim_C7_poller_witness :
    (∃ t, t < max_wait_time ∧ (check_ready_at_3 t).status = "Ready" ∧
      (image_wait check_ready_at_3).1 = .ready ((check_ready_at_3 t).sample) ∧
      (image_wait check_ready_at_3).2.1 = 1) ∧
    ((image_wait check_never_ready).1 = .timedOut ∧
      (image_wait check_never_ready).2.1 = 0) :=
  ⟨(claim_C7_poller check_ready_at_3).1 ⟨3, by decide, by decide⟩,
   (claim_C7_poller check_never_ready).2.1
     (fun t _ => by simp [check_never_ready])⟩

/-! Part: C10: the unguarded `steps_list[0]` read -/

/-- C10. A successful generation response with no recognized step
headers segments to an empty `steps_list`, and the new-build path then
evaluates `steps_list[0]` in its image-selection branch and raises
`IndexError` instead of completing the turn (in particular the history
push never runs). -/
theorem claim_C10_index_error :
    steps_list_of (split_into_sections "hello world") = [] ∧
    (new_build_turn all_ok initial_cache (some "hello world")).error
      = some .indexError ∧
    (new_build_turn all_ok initial_cache (some "hello world")).pushes = 0 := by
  decide

/-! Part: C6: the history push and downstream failures -/

/-- C6 counterexample.  Generation succeeded (the response is a one-step
text), but the first `message.reply` raises; the push at bot.py line 452
is placed after the whole reply/illustration loop, so it never runs and
the cache is left unchanged. -/
theorem claim_C6_counterexample :
    (new_build_turn env_first_reply_raises initial_cache
        (some "#### Step 1: A")).error = some .replyError ∧
    (new_build_turn env_first_reply_raises initial_cache
        (some "#### Step 1: A")).pushes = 0 ∧
    (new_build_turn env_first_reply_raises initial_cache
        (some "#### Step 1: A")).state = initial_cache := by
  refine ⟨by decide, by decide, ?_⟩
  rfl

/-- C6 amended.  On generation success the new-build path pushes the
resulting build exactly once **provided** the downstream
chunk/reply/illustration loop finishes without an exception; if any
downstream step raises, the turn aborts before the push and the history
is left unchanged (never pushed more than once either way), and a
refused generation (`None`) pushes nothing. -/
theorem claim_C6_push_once (env : EffectEnv) (s : CacheState) (r : String) :
    (new_build_turn env s (some r)).pushes ≤ 1 ∧
    ((new_build_turn env s (some r)).error = none →
      (new_build_turn env s (some r)).pushes = 1 ∧
      (new_build_turn env s (some r)).state
        = push_build s (steps_list_of (split_into_sections r))) ∧
    ((new_build_turn env s (some r)).error ≠ none →
      (new_build_turn env s (some r)).pushes = 0 ∧
      (new_build_turn env s (some r)).state = s) ∧
    (new_build_turn env s none).pushes = 0 := by
  rcases h : run_sections env (steps_list_of (split_into_sections r))
      (split_into_sections r) ⟨0, [], []⟩ with ⟨e, st⟩ | st <;>
    simp [new_build_turn, h]

/-- Witness for C6 (amended): a fault-free three-step turn pushes
exactly once. -/
theorem claim_C6_push_once_witness :
    (new_build_turn all_ok initial_cache (some three_step_response)).pushes = 1 ∧
    (new_build_turn all_ok initial_cache (some three_step_response)).state
      = push_build initial_cache
          (steps_list_of (split_into_sections three_step_response)) :=
  (claim_C6_push_once all_ok initial_cache three_step_response).2.1 (by decide)

/-! Part: C5: step-header recognition -/

theorem leads_with_append (p q s : List Char) :
    leads_with (p ++ q) s = true → leads_with p s = true := by
  induction p generalizing s with
  | nil => intro _; rfl
  | cons c cs ih =>
    intro h
    cases s with
    | nil => simp [leads_with] at h
    | cons d ds =>
      simp only [List.cons_append, leads_with, Bool.and_eq_true] at h ⊢
      exact ⟨h.1, ih ds h.2⟩

/-- C5 counterexample.  A text using only the numbered, bold-emphasized
header form yields an empty step list, while the equivalent hash-marked
text yields two steps — the two header forms are not interchangeable in
the code (the numbered-bold alternative is commented out at bot.py
lines 56/425). -/
theorem claim_C5_counterexample :
    steps_list_of (split_into_sections "1. **Cut the wood**\n2. **Sand it**")
      = [] ∧
    steps_list_of
        (split_into_sections "#### Step 1: Cut the wood\n#### Step 2: Sand it")
      = ["#### Step 1: Cut the wood", "#### Step 2: Sand it"] ∧
    ([] : List String)
      ≠ ["#### Step 1: Cut the wood", "#### Step 2: Sand it"] := by
  decide

/-- C5 amended.  A step boundary is recognized solely by the hash-marked
form: the boundary test of `split_into_sections` coincides with
`line.startswith('#### ')`, because the step-header regex only matches
lines that start with `'#### '` — no numbered-bold (or any other)
header form is recognized. -/
theorem claim_C5_hash_only (line : String) :
    section_boundary line = py_startswith line "#### " ∧
    (step_pattern_match line = true → py_startswith line "#### " = true) := by
  have himp : step_pattern_match line = true →
      py_startswith line "#### " = true := by
    intro h
    simp only [step_pattern_match, Bool.and_eq_true] at h
    have hm : step_header_marker = "#### ".data ++ "Step ".data := by decide
    exact leads_with_append _ _ _ (hm ▸ h.1)
  refine ⟨?_, himp⟩
  unfold section_boundary
  cases hsw : py_startswith line "#### "
  · cases hsp : step_pattern_match line
    · rfl
    · exact absurd (himp hsp) (by simp [hsw])
  · rfl

/-- Witness for C5 (amended) at a concrete hash-marked step header. -/
theorem claim_C5_hash_only_witness :
    step_pattern_match "#### Step 3: Drill" = true ∧
    py_startswith "#### Step 3: Drill" "#### " = true :=
  ⟨by decide, (claim_C5_hash_only "#### Step 3: Drill").2 (by decide)⟩

/-! Part: C8: illustration-request selection -/

theorem send_partitions_images (env : EffectEnv) :
    ∀ (ps : List String) (st : LoopSt),
      images_of (send_partitions env ps st) = st.images := by
  intro ps
  induction ps with
  | nil => intro st; rfl
  | cons p rest ih =>
    intro st
    by_cases hr : env.reply_raises st.reply_count
    · simp [send_partitions, hr, images_of]
    · simp only [send_partitions, hr, Bool.false_eq_true, if_false]
      exact ih _

theorem do_image_images (env : EffectEnv) (sec : String) (st : LoopSt) :
    images_of (do_image env sec st) = st.images ++ [sec] := by
  unfold do_image
  split <;> rfl

theorem image_trigger_iff (s0 : String) (rest : List String) (sec : String) :
    image_trigger (s0 :: rest) sec = true ↔
      (sec = s0 ∨
       ((s0 :: rest).length > 2 ∧
        sec = (s0 :: rest).getD ((s0 :: rest).length / 2) "") ∨
       ((s0 :: rest).length > 1 ∧
        sec = (s0 :: rest).getD ((s0 :: rest).length - 1) "")) := by
  simp [image_trigger, Bool.or_eq_true, Bool.and_eq_true, beq_iff_eq,
    decide_eq_true_eq, or_assoc]

theorem image_branch_images (env : EffectEnv) (steps : List String)
    (sec : String) (st : LoopSt) :
    images_of (image_branch env steps sec st)
      = st.images ++ (if image_trigger steps sec then [sec] else []) := by
  cases steps with
  | nil => simp [image_branch, images_of, image_trigger]
  | cons s0 rest =>
    simp only [image_branch]
    by_cases h1 : sec = s0
    · have ht : image_trigger (s0 :: rest) sec = true :=
        (image_trigger_iff s0 rest sec).mpr (Or.inl h1)
      rw [if_pos h1, do_image_images, ht]
      simp
    · rw [if_neg h1]
      by_cases h2 : (s0 :: rest).length > 2 ∧
          sec = (s0 :: rest).getD ((s0 :: rest).length / 2) ""
      · have ht : image_trigger (s0 :: rest) sec = true :=
          (image_trigger_iff s0 rest sec).mpr (Or.inr (Or.inl h2))
        rw [if_pos h2, do_image_images, ht]
        simp
      · rw [if_neg h2]
        by_cases h3 : (s0 :: rest).length > 1 ∧
            sec = (s0 :: rest).getD ((s0 :: rest).length - 1) ""
        · have ht : image_trigger (s0 :: rest) sec = true :=
            (image_trigger_iff s0 rest sec).mpr (Or.inr (Or.inr h3))
          rw [if_pos h3, do_image_images, ht]
          simp
        · have ht : image_trigger (s0 :: rest) sec = false := by
            rw [Bool.eq_false_iff]
            intro hc
            rcases (image_trigger_iff s0 rest sec).mp hc with h | h | h
            exacts [h1 h, h2 h, h3 h]
          rw [if_neg h3, ht]
          simp [images_of]

theorem run_sections_images (env : EffectEnv) (steps : List String) :
    ∀ (secs : List String) (st : LoopSt),
      ∃ P, images_of (run_sections env steps secs st) = st.images ++ P ∧
        P.Sublist (secs.filter
          (fun sec => py_strip_truthy sec && image_trigger steps sec)) := by
  intro secs
  induction secs with
  | nil => intro st; exact ⟨[], by simp [run_sections, images_of], by simp⟩
  | cons sec rest ih =>
    intro st
    by_cases hs : py_strip_truthy sec
    · rcases hsp : send_partitions env (partition_string sec) st with ⟨e, st'⟩ | st1
      · have himg : st'.images = st.images := by
          have h := send_partitions_images env (partition_string sec) st
          rw [hsp] at h
          exact h
        refine ⟨[], ?_, by simp⟩
        simp [run_sections, hs, hsp, images_of, himg]
      · have himg1 : st1.images = st.images := by
          have h := send_partitions_images env (partition_string sec) st
          rw [hsp] at h
          exact h
        rcases hib : image_branch env steps sec st1 with ⟨e, st2⟩ | st2
        · have himg2 : st2.images
              = st1.images ++ (if image_trigger steps sec then [sec] else []) := by
            have h := image_branch_images env steps sec st1
            rw [hib] at h
            exact h
          refine ⟨(if image_trigger steps sec then [sec] else []), ?_, ?_⟩
          · simp [run_sections, hs, hsp, hib, images_of, himg2, himg1]
          · by_cases ht : image_trigger steps sec
            · simp only [ht, if_true, List.filter_cons, hs, Bool.true_and]
              exact List.cons_sublist_cons.mpr (List.nil_sublist _)
            · simp [ht]
        · have himg2 : st2.images
              = st1.images ++ (if image_trigger steps sec then [sec] else []) := by
            have h := image_branch_images env steps sec st1
            rw [hib] at h
            exact h
          obtain ⟨P, hP1, hP2⟩ := ih st2
          refine ⟨(if image_trigger steps sec then [sec] else []) ++ P, ?_, ?_⟩
          · simp [run_sections, hs, hsp, hib, hP1, himg2, himg1, List.append_assoc]
          · by_cases ht : image_trigger steps sec
            · simp only [ht, if_true, List.filter_cons, hs, Bool.true_and,
                List.singleton_append]
              exact List.cons_sublist_cons.mpr hP2
            · simpa [ht, List.filter_cons, hs] using hP2
    · obtain ⟨P, hP1, hP2⟩ := ih st
      refine ⟨P, ?_, ?_⟩
      · simp [run_sections, hs, hP1]
      · simpa [List.filter_cons, hs] using hP2

theorem new_build_turn_images (env : EffectEnv) (s : CacheState) (r : String) :
    (new_build_turn env s (some r)).images
      = images_of (run_sections env (steps_list_of (split_into_sections r))
          (split_into_sections r) ⟨0, [], []⟩) := by
  rcases h : run_sections env (steps_list_of (split_into_sections r))
      (split_into_sections r) ⟨0, [], []⟩ with ⟨e, st⟩ | st <;>
    simp [new_build_turn, h, images_of]

theorem image_trigger_mem_targets (steps : List String) (sec : String)
    (h : image_trigger steps sec = true) : sec ∈ image_targets steps := by
  cases steps with
  | nil => simp [image_trigger] at h
  | cons s0 rest =>
    rcases (image_trigger_iff s0 rest sec).mp h with h' | ⟨_, h'⟩ | ⟨_, h'⟩ <;>
      simp [image_targets, h']

theorem on_message_cases (msg : IncomingMessage) (cs : CacheState) :
    on_message msg cs = (.ignored, 0) ∨ on_message msg cs = (.keyError, 0) ∨
    on_message msg cs = (.stepRangeError, 0) ∨
    on_message msg cs = (.outOfWindowError, 0) ∨
    (∃ st b, on_message msg cs = (.elabRecent st b, 1)) ∨
    (∃ st M b, on_message msg cs = (.elabNAgo st M b, 1)) ∨
    on_message msg cs = (.pictureShown, 0) ∨
    on_message msg cs = (.newBuild, 0) := by
  by_cases htrig : build_trigger_ok msg.content
  case neg =>
    simp only [Bool.not_eq_true] at htrig
    simp [on_message, htrig]
  case pos =>
  by_cases hne : dict_nonempty cs
  case neg =>
    simp only [Bool.not_eq_true] at hne
    rw [on_message_fallthrough msg cs htrig (Or.inl hne)]
    split <;> simp
  case pos =>
  cases hm1 : msg.elab_recent_match with
  | some step_ID =>
    rcases hh : cs.message_history (most_recent_slot cs) with _ | build
    · have hd : elab_dispatch msg cs = some (.keyError, 0) := by
        rw [elab_dispatch_recent msg cs step_ID hm1, hh]
      rw [on_message_of_dispatch msg cs _ htrig hne hd]
      simp
    · have hd : elab_dispatch msg cs =
          some (if step_ID < 1 || build.length < step_ID then
                  ((Outcome.stepRangeError : Outcome), (0 : Nat))
                else (.elabRecent step_ID build, 1)) := by
        rw [elab_dispatch_recent msg cs step_ID hm1, hh, apply_ite some]
      rw [on_message_of_dispatch msg cs _ htrig hne hd]
      split
      · simp
      · refine Or.inr (Or.inr (Or.inr (Or.inr (Or.inl ?_))))
        exact ⟨step_ID, build, rfl⟩
  | none =>
    cases hm2 : msg.elab_n_ago_match with
    | none =>
      rw [on_message_fallthrough msg cs htrig
        (Or.inr (elab_dispatch_no_match msg cs hm1 hm2))]
      split <;> simp
    | some p =>
      obtain ⟨step_ID, M⟩ := p
      by_cases hw : dict_contains cs (n_ago_slot cs M) = false ∨ MAX_HISTORY_LEN < M
      · have hd : elab_dispatch msg cs = some (.outOfWindowError, 0) := by
          rw [elab_dispatch_n_ago msg cs step_ID M hm1 hm2, if_pos hw]
        rw [on_message_of_dispatch msg cs _ htrig hne hd]
        simp
      · push_neg at hw
        rcases hh : cs.message_history (n_ago_slot cs M) with _ | build
        · exact absurd (by simp [dict_contains, hh]) hw.1
        · have hd : elab_dispatch msg cs =
              some (if step_ID < 1 || build.length < step_ID then
                      ((Outcome.stepRangeError : Outcome), (0 : Nat))
                    else (.elabNAgo step_ID M build, 1)) := by
            rw [elab_dispatch_n_ago msg cs step_ID M hm1 hm2,
              if_neg (by push_neg; exact hw), hh, apply_ite some]
          rw [on_message_of_dispatch msg cs _ htrig hne hd]
          split
          · simp
          · refine Or.inr (Or.inr (Or.inr (Or.inr (Or.inr (Or.inl ?_)))))
            exact ⟨step_ID, M, build, rfl⟩

/-- C8 counterexample.  The image-selection branch compares sections by
string equality, so a generation response of four identical step
sections issues four `generate_step_image` requests — more than three. -/
theorem claim_C8_counterexample :
    (new_build_turn all_ok initial_cache (some dup_response)).images.length = 4 ∧
    ¬((new_build_turn all_ok initial_cache (some dup_response)).images.length
        ≤ 3) := by
  decide

/-- C8 amended.  Provided the segmented sections of the response are
pairwise distinct, every new build issues at most three
`generate_step_image` requests, each targeting the first step section,
the middle one (only when there are more than two steps), or the last
one (only when there is more than one); and every completed elaboration
issues exactly one `generate_elaboration_image` request.  (Without the
distinctness proviso the bound fails, as the counterexample shows.) -/
theorem claim_C8_images (env : EffectEnv) (s : CacheState) (r : String)
    (msg : IncomingMessage) (cs : CacheState)
    (hnd : (split_into_sections r).Nodup) :
    (new_build_turn env s (some r)).images.length ≤ 3 ∧
    (∀ img ∈ (new_build_turn env s (some r)).images,
      steps_list_of (split_into_sections r) ≠ [] ∧
      (img = (steps_list_of (split_into_sections r)).headD "" ∨
       ((steps_list_of (split_into_sections r)).length > 2 ∧
        img = (steps_list_of (split_into_sections r)).getD
          ((steps_list_of (split_into_sections r)).length / 2) "") ∨
       ((steps_list_of (split_into_sections r)).length > 1 ∧
        img = (steps_list_of (split_into_sections r)).getD
          ((steps_list_of (split_into_sections r)).length - 1) ""))) ∧
    (∀ step_ID build, (on_message msg cs).1 = .elabRecent step_ID build →
      (on_message msg cs).2 = 1) ∧
    (∀ step_ID M build, (on_message msg cs).1 = .elabNAgo step_ID M build →
      (on_message msg cs).2 = 1) := by
  obtain ⟨P, hP1, hP2⟩ := run_sections_images env
    (steps_list_of (split_into_sections r)) (split_into_sections r) ⟨0, [], []⟩
  have himg : (new_build_turn env s (some r)).images = P := by
    rw [new_build_turn_images, hP1]
    rfl
  have hmem : ∀ img ∈ P,
      image_trigger (steps_list_of (split_into_sections r)) img = true := by
    intro img hi
    have := List.of_mem_filter (hP2.subset hi)
    exact (Bool.and_eq_true _ _).mp this |>.2
  refine ⟨?_, ?_, ?_, ?_⟩
  · rw [himg]
    have hnodup : P.Nodup := hP2.nodup (hnd.filter _)
    have hsub : P ⊆ image_targets (steps_list_of (split_into_sections r)) :=
      fun x hx => image_trigger_mem_targets _ x (hmem x hx)
    have hle := (List.subperm_of_subset hnodup hsub).length_le
    refine le_trans hle ?_
    cases steps_list_of (split_into_sections r) <;> simp [image_targets]
  · intro img hi
    rw [himg] at hi
    have ht := hmem img hi
    cases hst : steps_list_of (split_into_sections r) with
    | nil => rw [hst] at ht; simp [image_trigger] at ht
    | cons s0 rest =>
      rw [hst] at ht
      refine ⟨by simp, ?_⟩
      rcases (image_trigger_iff s0 rest img).mp ht with h | ⟨h1, h2⟩ | ⟨h1, h2⟩
      · exact Or.inl (by simp [h])
      · exact Or.inr (Or.inl ⟨h1, h2⟩)
      · exact Or.inr (Or.inr ⟨h1, h2⟩)
  · intro step_ID build heq
    rcases on_message_cases msg cs with h | h | h | h | ⟨st, b, h⟩ | ⟨st, M, b, h⟩ | h | h <;>
      rw [h] at heq ⊢ <;> simp_all
  · intro step_ID M build heq
    rcases on_message_cases msg cs with h | h | h | h | ⟨st, b, h⟩ | ⟨st, M', b, h⟩ | h | h <;>
      rw [h] at heq ⊢ <;> simp_all

/-- Witness for C8 (amended): a fault-free three-step turn issues three
requests, within the bound. -/
theorem claim_C8_images_witness :
    (new_build_turn all_ok initial_cache (some three_step_response)).images.length
      ≤ 3 :=
  (claim_C8_images all_ok initial_cache three_step_response msg_explain_prev
    full_cache (by decide)).1

/-! Part: C4: the chunker -/

theorem py_join_cons_cons (sep x y : String) (rest : List String) :
    py_join sep (x :: y :: rest) = x ++ sep ++ py_join sep (y :: rest) := rfl

theorem py_join_append (sep : String) :
    ∀ (xs ys : List String), xs ≠ [] → ys ≠ [] →
      py_join sep (xs ++ ys) = py_join sep xs ++ sep ++ py_join sep ys := by
  intro xs
  induction xs with
  | nil => intro ys h; exact absurd rfl h
  | cons x xs ih =>
    intro ys _ hy
    cases xs with
    | nil =>
      cases ys with
      | nil => exact absurd rfl hy
      | cons y ys' => rfl
    | cons x' xs' =>
      have h1 : py_join sep ((x :: x' :: xs') ++ ys)
          = x ++ sep ++ py_join sep ((x' :: xs') ++ ys) := rfl
      rw [h1, ih ys (by simp) hy, py_join_cons_cons]
      simp [String.append_assoc]

theorem py_join_glue (current word : String) (tail : List String) :
    py_join " " ((current ++ " " ++ word) :: tail)
      = py_join " " (current :: word :: tail) := by
  cases tail with
  | nil => rfl
  | cons t ts =>
    rw [py_join_cons_cons, py_join_cons_cons, py_join_cons_cons]
    simp [String.append_assoc]

theorem py_join_merge (ps : List String) (current word : String)
    (tail : List String) :
    py_join " " (ps ++ (current ++ " " ++ word) :: tail)
      = py_join " " (ps ++ current :: word :: tail) := by
  cases ps with
  | nil => exact py_join_glue current word tail
  | cons p ps' =>
    rw [py_join_append " " (p :: ps') _ (by simp) (by simp),
      py_join_append " " (p :: ps') _ (by simp) (by simp), py_join_glue]

theorem str_ne_empty_of_length_pos {s : String} (h : 0 < s.length) : s ≠ "" := by
  intro hs
  rw [hs] at h
  simp at h

theorem partition_loop_main (max : Nat) :
    ∀ (rest partitions : List String) (current : String),
      current ≠ "" → (∀ w ∈ rest, w ≠ "") → (∀ p ∈ partitions, p ≠ "") →
      (∀ p ∈ (partition_loop max rest partitions current).1, p ≠ "") ∧
      (partition_loop max rest partitions current).2 ≠ "" ∧
      py_join " " ((partition_loop max rest partitions current).1
          ++ [(partition_loop max rest partitions current).2])
        = py_join " " (partitions ++ current :: rest) := by
  intro rest
  induction rest with
  | nil =>
    intro partitions current hc _ hp
    exact ⟨hp, hc, rfl⟩
  | cons word rest ih =>
    intro partitions current hc hw hp
    simp only [partition_loop]
    rw [if_neg hc]
    by_cases hfit : (current ++ " " ++ word).length ≤ max
    · rw [if_pos hfit]
      have hpot : current ++ " " ++ word ≠ "" := by
        apply str_ne_empty_of_length_pos
        rw [String.length_append, String.length_append]
        have h1 : (" " : String).length = 1 := rfl
        omega
      obtain ⟨h1, h2, h3⟩ := ih partitions (current ++ " " ++ word) hpot
        (fun w hw' => hw w (List.mem_cons_of_mem _ hw')) hp
      refine ⟨h1, h2, ?_⟩
      rw [h3]
      exact py_join_merge partitions current word rest
    · rw [if_neg hfit]
      have hwne : word ≠ "" := hw word (List.mem_cons_self _ _)
      have hp' : ∀ p ∈ partitions ++ [current], p ≠ "" := by
        intro p hpm
        rcases List.mem_append.mp hpm with h | h
        · exact hp p h
        · simp only [List.mem_singleton] at h
          subst h
          exact hc
      obtain ⟨h1, h2, h3⟩ := ih (partitions ++ [current]) word hwne
        (fun w hw' => hw w (List.mem_cons_of_mem _ hw')) hp'
      refine ⟨h1, h2, ?_⟩
      rw [h3]
      congr 1
      simp

theorem partition_loop_sizes (max : Nat) (W : List String) :
    ∀ (rest partitions : List String) (current : String),
      (∀ w ∈ rest, w ∈ W) →
      (∀ p ∈ partitions, p.length ≤ max ∨ p ∈ W) →
      (current.length ≤ max ∨ current ∈ W) →
      (∀ p ∈ (partition_loop max rest partitions current).1,
        p.length ≤ max ∨ p ∈ W) ∧
      ((partition_loop max rest partitions current).2.length ≤ max ∨
        (partition_loop max rest partitions current).2 ∈ W) := by
  intro rest
  induction rest with
  | nil => intro partitions current _ hp hc; exact ⟨hp, hc⟩
  | cons word rest ih =>
    intro partitions current hw hp hc
    have hp' : ∀ p ∈ partitions ++ [current], p.length ≤ max ∨ p ∈ W := by
      intro p hpm
      rcases List.mem_append.mp hpm with h | h
      · exact hp p h
      · simp only [List.mem_singleton] at h
        subst h
        exact hc
    by_cases hcur : current = ""
    · simp only [partition_loop, if_pos hcur]
      by_cases hfit : (current ++ word).length ≤ max
      · rw [if_pos hfit]
        exact ih partitions _ (fun w hw' => hw w (List.mem_cons_of_mem _ hw'))
          hp (Or.inl hfit)
      · rw [if_neg hfit]
        exact ih (partitions ++ [current]) word
          (fun w hw' => hw w (List.mem_cons_of_mem _ hw')) hp'
          (Or.inr (hw word (List.mem_cons_self _ _)))
    · simp only [partition_loop, if_neg hcur]
      by_cases hfit : (current ++ " " ++ word).length ≤ max
      · rw [if_pos hfit]
        exact ih partitions _ (fun w hw' => hw w (List.mem_cons_of_mem _ hw'))
          hp (Or.inl hfit)
      · rw [if_neg hfit]
        exact ih (partitions ++ [current]) word
          (fun w hw' => hw w (List.mem_cons_of_mem _ hw')) hp'
          (Or.inr (hw word (List.mem_cons_self _ _)))

theorem py_join_map_mk (c : Char) :
    ∀ (parts : List (List Char)), parts ≠ [] →
      py_join (String.mk [c]) (parts.map String.mk)
        = String.mk (List.intercalate [c] parts) := by
  intro parts
  induction parts with
  | nil => intro h; exact absurd rfl h
  | cons p ps ih =>
    intro _
    cases ps with
    | nil => simp [py_join, List.intercalate]
    | cons q qs =>
      have h1 : py_join (String.mk [c]) ((p :: q :: qs).map String.mk)
          = String.mk p ++ String.mk [c]
              ++ py_join (String.mk [c]) ((q :: qs).map String.mk) := rfl
      rw [h1, ih (by simp)]
      have hin : List.intercalate [c] (p :: q :: qs)
          = p ++ [c] ++ List.intercalate [c] (q :: qs) := by
        simp [List.intercalate, List.intersperse_cons_cons, List.append_assoc]
      rw [hin]
      apply String.ext
      simp

theorem py_split_ne_nil (text : String) (c : Char) : py_split text c ≠ [] := by
  unfold py_split
  intro h
  rw [List.map_eq_nil_iff] at h
  exact List.splitOnP_ne_nil _ text.data h

theorem py_join_py_split (text : String) :
    py_join " " (py_split text ' ') = text := by
  have h := py_join_map_mk ' ' (text.data.splitOn ' ')
    (by unfold List.splitOn; exact List.splitOnP_ne_nil _ text.data)
  unfold py_split
  have hsep : (" " : String) = String.mk [' '] := rfl
  rw [hsep, h, List.intercalate_splitOn]

/-- C4 counterexample.  At `maxSize = 3` the single oversized word
`"abcd"` makes `partition_string` emit a leading **empty** fragment in
front of the oversized word, so "no fragment is empty" fails — and
joining the fragments with single spaces yields `" abcd"`, not the
original (whitespace-normalized) text. -/
theorem claim_C4_counterexample :
    partition_string "abcd" 3 = ["", "abcd"] ∧
    "" ∈ partition_string "abcd" 3 ∧
    py_join " " (partition_string "abcd" 3) ≠ "abcd" := by
  decide

/-- C4 amended.  For every text whose space-split word list has no empty
entries (no leading/trailing/double spaces, text non-empty) **and whose
first word already fits in `maxSize`**, every fragment returned by
`partition_string` is non-empty, each fragment either has length ≤
`maxSize` or is a single (unsplit) word of the text, and joining the
fragments with single spaces reproduces the original text exactly.
Without the first-word proviso a leading empty fragment appears (see
the counterexample). -/
theorem claim_C4_partition (text : String) (max : Nat)
    (hw : ∀ w ∈ py_split text ' ', w ≠ "")
    (hfirst : ∀ w, (py_split text ' ').head? = some w → w.length ≤ max) :
    (∀ frag ∈ partition_string text max, frag ≠ "") ∧
    (∀ frag ∈ partition_string text max,
      frag.length ≤ max ∨ frag ∈ py_split text ' ') ∧
    py_join " " (partition_string text max) = text := by
  have htext : text ≠ "" := by
    intro h
    subst h
    exact hw "" (by decide) rfl
  obtain ⟨w1, rest, hsplit⟩ : ∃ w1 rest, py_split text ' ' = w1 :: rest := by
    cases hsp : py_split text ' ' with
    | nil => exact absurd hsp (py_split_ne_nil text ' ')
    | cons a l => exact ⟨a, l, rfl⟩
  have hw1len : w1.length ≤ max := hfirst w1 (by rw [hsplit]; rfl)
  have hw1ne : w1 ≠ "" := hw w1 (by rw [hsplit]; exact List.mem_cons_self _ _)
  have hstep : partition_loop max (w1 :: rest) [] ""
      = partition_loop max rest [] w1 := by
    simp [partition_loop, String.empty_append, hw1len]
  have hrw : partition_string text max =
      (let r := partition_loop max rest [] w1
       if r.2 = "" then r.1 else r.1 ++ [r.2]) := by
    unfold partition_string
    rw [if_neg htext, hsplit]
    simp only [hstep]
  obtain ⟨hall, hlast, hjoin⟩ := partition_loop_main max rest [] w1 hw1ne
    (fun w hw' => hw w (by rw [hsplit]; exact List.mem_cons_of_mem _ hw'))
    (by simp)
  obtain ⟨hs1, hs2⟩ := partition_loop_sizes max (py_split text ' ') rest [] w1
    (fun w hw' => by rw [hsplit]; exact List.mem_cons_of_mem _ hw')
    (by simp) (Or.inl hw1len)
  rw [hrw]
  simp only [if_neg hlast]
  refine ⟨?_, ?_, ?_⟩
  · intro frag hf
    rcases List.mem_append.mp hf with h | h
    · exact hall frag h
    · simp only [List.mem_singleton] at h
      subst h
      exact hlast
  · intro frag hf
    rcases List.mem_append.mp hf with h | h
    · exact hs1 frag h
    · simp only [List.mem_singleton] at h
      subst h
      exact hs2
  · rw [hjoin, List.nil_append, ← hsplit]
    exact py_join_py_split text

/-- Witness for C4 (amended) at a concrete three-word text. -/
theorem claim_C4_partition_witness :
    (∀ frag ∈ partition_string "ab cd ef" 5, frag ≠ "") ∧
    (∀ frag ∈ partition_string "ab cd ef" 5,
      frag.length ≤ 5 ∨ frag ∈ py_split "ab cd ef" ' ') ∧
    py_join " " (partition_string "ab cd ef" 5) = "ab cd ef" :=
  claim_C4_partition "ab cd ef" 5 (by decide) (by decide)

end BuilderBot
